import Mathlib

/-!
Formal model of the virtio-iommu topology discovery and endpoint-resolution
engine (drivers/iommu/virtio-iommu-topology.c), together with theorems that
check the natural-language specification of that subsystem against the code.

The embedding is shallow: each C function relevant to the claims is translated
into a Lean definition over explicit state.  Machine integers are modelled as
Nat, with reduction modulo 2 ^ 32 made explicit exactly where the C code
performs 32-bit arithmetic whose wrapping is observable.  The process-wide
registry (the viommus linked list) is modelled as a Lean list in the same
order in which list_for_each_entry traverses it; list_add prepends to that
list.  The mutex only serializes accesses and has no effect on the functional
behaviour modelled here.
-/

/-- Classification of a bus device as performed by virt_iommu_setup:
a PCI device carries its bus domain number (pci_domain_nr) and its 16-bit
requester ID (pci_dev_id); a platform device carries the start address of its
primary IORESOURCE_MEM resource when one exists (platform_get_resource);
any other bus is out of scope for the resolver. -/
inductive DeviceClass where
  | pci (domain : Nat) (devid : Nat)
  | platform (memStart : Option Nat)
  | otherBus
  deriving DecidableEq

/-- A struct device, identified for pointer-equality purposes by an id,
carrying its fwnode pointer (none models NULL) and its bus classification. -/
structure Device where
  id : Nat
  fwnode : Option Nat
  cls : DeviceClass
  deriving DecidableEq

/-- Decoded view of one union viommu_topo_cfg entry.  The discriminant
(the leading 16-bit type field) selects the live variant:
VIRTIO_IOMMU_TOPO_PCI_RANGE gives a PCI range, VIRTIO_IOMMU_TOPO_ENDPOINT a
memory-mapped endpoint, and any other discriminant is stored but carries no
fields that the resolver ever reads. -/
inductive ViommuTopoCfg where
  | pciRange (hierarchy requester_start requester_end endpoint_start : Nat)
  | endpoint (address : Nat) (endpointId : Nat)
  | unknown (type : Nat)
  deriving DecidableEq

/-- One struct viommu_spec: the transport device the table was read from,
its fwnode and iommu_ops pointers (none models NULL, filled in later by
virt_set_iommu_ops), and the decoded entry array in stored order. -/
structure ViommuSpec where
  dev : Device
  fwnode : Option Nat
  ops : Option Nat
  cfg : List ViommuTopoCfg
  deriving DecidableEq

/-- Model of viommu_parse_pci: a PCI device with the given bus domain and
requester ID matches a stored entry iff the entry's type is
VIRTIO_IOMMU_TOPO_PCI_RANGE, the hierarchy equals the device's domain and the
requester ID lies in the inclusive requester range; the returned endpoint ID
is devid - requester_start + endpoint_start computed in 32-bit arithmetic. -/
def viommu_parse_pci (domain devid : Nat) : ViommuTopoCfg → Option Nat
  | ViommuTopoCfg.pciRange hierarchy requester_start requester_end endpoint_start =>
      if domain = hierarchy ∧ requester_start ≤ devid ∧ devid ≤ requester_end then
        some ((devid - requester_start + endpoint_start) % 2 ^ 32)
      else
        none
  | _ => none

/-- Model of viommu_parse_plat: a platform device whose primary memory
resource starts at memStart matches a stored entry iff the entry's type is
VIRTIO_IOMMU_TOPO_ENDPOINT and its address equals memStart; the returned
endpoint ID is the stored endpoint field. -/
def viommu_parse_plat (memStart : Nat) : ViommuTopoCfg → Option Nat
  | ViommuTopoCfg.endpoint address endpointId =>
      if address = memStart then some endpointId else none
  | _ => none

/-- First matching entry of one table, in stored order: the inner loop of
virt_iommu_setup over viommu_spec.cfg, returning the endpoint ID written by
the first entry for which the match function succeeds. -/
def firstEntryMatch (f : ViommuTopoCfg → Option Nat) : List ViommuTopoCfg → Option Nat
  | [] => none
  | c :: cs =>
    match f c with
    | some e => some e
    | none => firstEntryMatch f cs

/-- Outer loop of virt_iommu_setup over the viommus list: returns the first
table, in list order, containing a matching entry, together with the matched
endpoint ID. -/
def scanSpecs (f : ViommuTopoCfg → Option Nat) : List ViommuSpec → Option (ViommuSpec × Nat)
  | [] => none
  | s :: rest =>
    match firstEntryMatch f s.cfg with
    | some e => some (s, e)
    | none => scanSpecs f rest

/-- Outcome of virt_iommu_setup, decoding its returned iommu_ops pointer and
its side effect on the device's fwspec: alreadyTranslated models the early
return of fwspec-ops when the fwspec already carries ops; translated carries
the endpoint ID registered through iommu_fwspec_add_ids together with the
owning table's ops and fwnode passed to iommu_fwspec_init; deferred models
ERR_PTR(-EPROBE_DEFER); notApplicable models a NULL return. -/
inductive Resolution where
  | alreadyTranslated (ops : Nat)
  | translated (epid : Nat) (ops : Nat) (fwnode : Option Nat)
  | deferred
  | notApplicable
  deriving DecidableEq

/-- Tail of virt_iommu_setup after the registry walk: no match yields NULL;
a match on the IOMMU's own transport device yields NULL; a match on a table
whose ops is still NULL yields ERR_PTR(-EPROBE_DEFER); otherwise the fwspec
is initialized with the table's fwnode and ops and the endpoint ID is added. -/
def resolveScan (f : ViommuTopoCfg → Option Nat) (d : Device)
    (regs : List ViommuSpec) : Resolution :=
  match scanSpecs f regs with
  | none => Resolution.notApplicable
  | some (s, e) =>
    if s.dev = d then Resolution.notApplicable
    else
      match s.ops with
      | none => Resolution.deferred
      | some ops => Resolution.translated e ops s.fwnode

/-- Device classification step of virt_iommu_setup: a PCI device is matched
with viommu_parse_pci, a platform device that has a primary memory resource
with viommu_parse_plat; a platform device without one, or a device on any
other bus, is rejected before the registry is consulted. -/
def deviceMatcher (d : Device) : Option (ViommuTopoCfg → Option Nat) :=
  match d.cls with
  | DeviceClass.pci domain devid => some (viommu_parse_pci domain devid)
  | DeviceClass.platform (some memStart) => some (viommu_parse_plat memStart)
  | DeviceClass.platform none => none
  | DeviceClass.otherBus => none

/-- Model of virt_iommu_setup: fwspecOps is the ops field of the device's
existing iommu_fwspec (none when the fwspec is absent or carries no ops);
regs is the viommus registry in traversal order. -/
def virt_iommu_setup (regs : List ViommuSpec) (fwspecOps : Option Nat)
    (d : Device) : Resolution :=
  match fwspecOps with
  | some ops => Resolution.alreadyTranslated ops
  | none =>
    match deviceMatcher d with
    | none => Resolution.notApplicable
    | some f => resolveScan f d regs

/-- Linux probe-deferral errno value, EPROBE_DEFER.  Modelled from the spec:
the errno header is not part of this repository; virt_dma_configure
propagates the "try again" signal as the negated value of this constant. -/
def EPROBE_DEFER : Int := 517

/-- Model of virt_dma_configure: on ERR_PTR(-EPROBE_DEFER) from
virt_iommu_setup it returns -EPROBE_DEFER; every other outcome (including a
NULL ops pointer) falls through to the DMA setup and returns 0. -/
def virt_dma_configure (regs : List ViommuSpec) (fwspecOps : Option Nat)
    (d : Device) : Int :=
  match virt_iommu_setup regs fwspecOps d with
  | Resolution.deferred => -EPROBE_DEFER
  | _ => 0

/-- Model of the registry insertion performed by viommu_parse_topology:
list_add prepends the new viommu_spec to the viommus list head, so the most
recently inserted table is the first one visited by list_for_each_entry. -/
def insertTable (s : ViommuSpec) (regs : List ViommuSpec) : List ViommuSpec :=
  s :: regs

/-- Model of virt_set_iommu_ops: walk the registry in traversal order and,
at the first table whose transport device equals dev, set ops to the given
pointer and fwnode to dev's fwnode when ops is non-NULL or to NULL when ops
is NULL, then stop; all other tables are left untouched. -/
def virt_set_iommu_ops (d : Device) (newOps : Option Nat) :
    List ViommuSpec → List ViommuSpec
  | [] => []
  | s :: rest =>
    if s.dev = d then
      { s with ops := newOps,
               fwnode := if newOps.isSome then d.fwnode else none } :: rest
    else
      s :: virt_set_iommu_ops d newOps rest

/-- One struct viommu_cap_config as used for bounds checking: the BAR number,
the declared byte length of the capability structure, and its byte offset
within the BAR.  The capability position in config space (the pos field) only
addresses the config writes and plays no part in the bounds logic. -/
structure ViommuCapConfig where
  bar : Nat
  length : Nat
  offset : Nat
  deriving DecidableEq

/-- Model of viommu_pci_switch_cfg: the requested offset is first shifted by
the capability's own offset in 32-bit arithmetic; the overflow check then
compares offset + length against cap.offset + cap.length, both sums computed
as u32 and therefore wrapping at 2 ^ 32.  On failure (-EOVERFLOW) the result
is none and no config write is issued; on success the window is reprogrammed
through three config writes, modelled as the resulting (bar, length, offset)
triple. -/
def viommu_pci_switch_cfg (cap : ViommuCapConfig) (length offset : Nat) :
    Option (Nat × Nat × Nat) :=
  let off := (offset + cap.offset) % 2 ^ 32
  if (off + length) % 2 ^ 32 > (cap.offset + cap.length) % 2 ^ 32 then none
  else some (cap.bar, length, off)

/-- Model of viommu_pci_readl: switch the capability window to a 4-byte view
at the requested offset; if that fails, return 0 without touching the bus;
otherwise issue the bus access through the programmed window.  busRead models
the pci_read_config_dword through the window described by the triple. -/
def viommu_pci_readl (cap : ViommuCapConfig) (busRead : Nat × Nat × Nat → Nat)
    (offset : Nat) : Nat :=
  match viommu_pci_switch_cfg cap 4 offset with
  | none => 0
  | some w => busRead w

/-- Loop body of viommu_ccopy: n remaining 4-byte reads starting at the given
cursor, which is a u32 and therefore reduced modulo 2 ^ 32 at each read; the
first component collects the values read in order, the second the sequence of
offsets passed to the reader. -/
def ccopyLoop (rd : Nat → Nat) : Nat → Nat → List Nat × List Nat
  | _offset, 0 => ([], [])
  | offset, n + 1 =>
    let rest := ccopyLoop rd (offset + 4) n
    (rd (offset % 2 ^ 32) :: rest.fst, offset % 2 ^ 32 :: rest.snd)

/-- Model of viommu_ccopy: a byte length that is not a multiple of 4 trips
the WARN_ON and aborts before any read, leaving the destination untouched;
otherwise length / 4 sequential 4-byte reads are performed, their results
overwriting the first length / 4 words of the destination in order.  The
first component is the destination after the call, the second the sequence of
offsets passed to the reader. -/
def viommu_ccopy (rd : Nat → Nat) (dest : List Nat) (length offset : Nat) :
    List Nat × List Nat :=
  if length % 4 ≠ 0 then (dest, [])
  else
    let r := ccopyLoop rd offset (length / 4)
    (r.fst ++ dest.drop (length / 4), r.snd)

/-- Size of union viommu_topo_cfg in 32-bit words.  Modelled from the spec:
the uapi header declaring the two 16-byte entry layouts is not part of this
repository; both layouts of section 3 occupy 16 bytes, so the union holds
four 32-bit words. -/
def topoCfgWords : Nat := 4

/-- Size of union viommu_topo_cfg in bytes, the decoder's fixed entry size
that read lengths are capped to. -/
def entrySize : Nat := 4 * topoCfgWords

/-- One iteration of the copy loop of viommu_parse_topology: the entry
storage starts zeroed (kzalloc), the read length is capped to the fixed
entry size, and viommu_ccopy fills the leading words. -/
def decodedEntry (rd : Nat → Nat) (item_length offset : Nat) : List Nat :=
  (viommu_ccopy rd (List.replicate topoCfgWords 0)
    (min item_length entrySize) offset).fst

/-- Words of one item as the reader exposes them: the entry-size window of
the device region starting at the item's base offset, read as consecutive
32-bit words. -/
def itemWords (rd : Nat → Nat) (base : Nat) : List Nat :=
  (List.range topoCfgWords).map (fun j => rd ((base + 4 * j) % 2 ^ 32))

/-- Copy loop of viommu_parse_topology: one decoded entry per remaining item,
the read cursor advancing by the device-declared item_length after each item
regardless of the capped read length. -/
def parseItems (rd : Nat → Nat) (item_length : Nat) : Nat → Nat → List (List Nat)
  | _offset, 0 => []
  | offset, n + 1 =>
    decodedEntry rd item_length offset
      :: parseItems rd item_length (offset + item_length) n

/-- One struct viommu_spec as built by the decoder, before the entries are
interpreted: the transport device, the recorded item count and the raw entry
array, each entry being topoCfgWords 32-bit words. -/
structure RawSpec where
  dev : Device
  num_items : Nat
  cfg : List (List Nat)
  deriving DecidableEq

/-- Model of viommu_parse_topology given the three header fields read from
the device config (offset, item_length, num_items): a zero in any of them
means the device declares no topology and the function returns successfully
without allocating (none); otherwise the table is decoded.  Allocation
failure (-ENOMEM) is an environment failure outside this model. -/
def viommu_parse_topology (dev : Device) (rd : Nat → Nat)
    (offset item_length num_items : Nat) : Option RawSpec :=
  if offset = 0 ∨ num_items = 0 ∨ item_length = 0 then none
  else
    some { dev := dev, num_items := num_items,
           cfg := parseItems rd item_length offset num_items }

/-- Registry side effect of viommu_parse_topology: on the "no table" outcome
nothing is inserted; otherwise the new table is prepended to the viommus
list by list_add. -/
def viommu_parse_and_register (regs : List RawSpec) (dev : Device)
    (rd : Nat → Nat) (offset item_length num_items : Nat) : List RawSpec :=
  match viommu_parse_topology dev rd offset item_length num_items with
  | none => regs
  | some s => s :: regs

/-- Little-endian byte expansion of one 32-bit word, in device byte order. -/
def wordBytes (w : Nat) : List Nat :=
  [w % 256, w / 2 ^ 8 % 256, w / 2 ^ 16 % 256, w / 2 ^ 24 % 256]

/-- Little-endian byte expansion of a word sequence. -/
def wordsToBytes : List Nat → List Nat
  | [] => []
  | w :: ws => wordBytes w ++ wordsToBytes ws

/-- Sample transport device of one virtual IOMMU, used as a concrete input. -/
def devOwnerA : Device :=
  { id := 1, fwnode := some 7, cls := DeviceClass.otherBus }

/-- Second sample transport device, used as a concrete input. -/
def devOwnerB : Device :=
  { id := 3, fwnode := none, cls := DeviceClass.otherBus }

/-- Sample PCI endpoint device in domain 0 with requester ID 11. -/
def devPci11 : Device :=
  { id := 2, fwnode := none, cls := DeviceClass.pci 0 11 }

/-- Sample device on a bus that is neither PCI nor platform. -/
def devNone : Device :=
  { id := 0, fwnode := none, cls := DeviceClass.otherBus }

/-- Sample decoded table owned by devOwnerA with registered ops 1, covering
requester IDs 8..15 of domain 0 from endpoint 100 on. -/
def specA : ViommuSpec :=
  { dev := devOwnerA, fwnode := none, ops := some 1,
    cfg := [ViommuTopoCfg.pciRange 0 8 15 100] }

/-- Sample decoded table owned by devOwnerB with registered ops 2, covering
requester IDs 0..255 of domain 0 from endpoint 500 on. -/
def specB : ViommuSpec :=
  { dev := devOwnerB, fwnode := none, ops := some 2,
    cfg := [ViommuTopoCfg.pciRange 0 0 255 500] }

/-- Sample decoded table owned by devOwnerA whose driver has not registered
ops yet. -/
def specPending : ViommuSpec :=
  { dev := devOwnerA, fwnode := none, ops := none,
    cfg := [ViommuTopoCfg.pciRange 0 8 15 100] }

/-- Sample PCI device that is itself the transport device of a table whose
sole entry covers its own requester ID. -/
def devSelf : Device :=
  { id := 4, fwnode := some 5, cls := DeviceClass.pci 0 8 }

/-- Sample decoded table owned by devSelf that matches devSelf itself. -/
def specSelf : ViommuSpec :=
  { dev := devSelf, fwnode := none, ops := some 9,
    cfg := [ViommuTopoCfg.pciRange 0 8 15 100] }

/-- Sample reader used to exercise the decoder on concrete inputs. -/
def rdW : Nat → Nat := fun off => off + 100

/-- Sample constant reader whose every 32-bit word is 171. -/
def rdC3 : Nat → Nat := fun _ => 171

/-- Sample transport device used to exercise ops registration. -/
def devT : Device := { id := 6, fwnode := some 11, cls := DeviceClass.otherBus }

/-- Sample unbound table owned by devT. -/
def specT : ViommuSpec :=
  { dev := devT, fwnode := none, ops := none,
    cfg := [ViommuTopoCfg.endpoint 4096 7] }

/-- C1: the resolver's match predicate, exactly as specified.  PCI side: an
entry yields a match with endpoint ID e iff it is a PciRange whose hierarchy
equals the device's domain with the requester ID inside the inclusive range,
and e is the 32-bit linear remap; requester_start maps to endpoint_start;
requester_end maps to endpoint_start plus the range width; one past
requester_end, or a foreign domain, never matches; non-PciRange entries never
match a PCI device.  Platform side: an entry matches iff it is an Endpoint
whose address equals the device's primary resource base, yielding the stored
endpoint ID; a differing address or a non-Endpoint entry never matches. -/
theorem c1_match_predicate :
    (∀ domain devid h rs re es e,
        viommu_parse_pci domain devid (ViommuTopoCfg.pciRange h rs re es) = some e ↔
          (domain = h ∧ rs ≤ devid ∧ devid ≤ re ∧ e = (devid - rs + es) % 2 ^ 32)) ∧
    (∀ h rs re es, es < 2 ^ 32 → rs ≤ re →
        viommu_parse_pci h rs (ViommuTopoCfg.pciRange h rs re es) = some es) ∧
    (∀ h rs re es, rs ≤ re → es + (re - rs) < 2 ^ 32 →
        viommu_parse_pci h re (ViommuTopoCfg.pciRange h rs re es) =
          some (es + (re - rs))) ∧
    (∀ h rs re es devid, devid = re + 1 →
        viommu_parse_pci h devid (ViommuTopoCfg.pciRange h rs re es) = none) ∧
    (∀ dd h rs re es devid, dd ≠ h →
        viommu_parse_pci dd devid (ViommuTopoCfg.pciRange h rs re es) = none) ∧
    (∀ domain devid cfg, (∀ h rs re es, cfg ≠ ViommuTopoCfg.pciRange h rs re es) →
        viommu_parse_pci domain devid cfg = none) ∧
    (∀ m a ei e,
        viommu_parse_plat m (ViommuTopoCfg.endpoint a ei) = some e ↔ (a = m ∧ e = ei)) ∧
    (∀ m a ei, a ≠ m → viommu_parse_plat m (ViommuTopoCfg.endpoint a ei) = none) ∧
    (∀ m cfg, (∀ a ei, cfg ≠ ViommuTopoCfg.endpoint a ei) →
        viommu_parse_plat m cfg = none) := by
  refine ⟨?_, ?_, ?_, ?_, ?_, ?_, ?_, ?_, ?_⟩
  · intro domain devid h rs re es e
    simp only [viommu_parse_pci]
    split
    · rename_i hc
      constructor
      · intro he
        exact ⟨hc.1, hc.2.1, hc.2.2, (Option.some.inj he).symm⟩
      · intro hc2
        exact congrArg some hc2.2.2.2.symm
    · rename_i hc
      constructor
      · intro he; cases he
      · intro hc2; exact absurd ⟨hc2.1, hc2.2.1, hc2.2.2.1⟩ hc
  · intro h rs re es hes hre
    simp only [viommu_parse_pci]
    rw [if_pos ⟨trivial, Nat.le_refl rs, hre⟩, Nat.sub_self, Nat.zero_add,
        Nat.mod_eq_of_lt hes]
  · intro h rs re es hre hlt
    have hcomm : re - rs + es = es + (re - rs) := Nat.add_comm _ _
    simp only [viommu_parse_pci]
    rw [if_pos ⟨trivial, hre, Nat.le_refl re⟩, hcomm, Nat.mod_eq_of_lt hlt]
  · intro h rs re es devid hdev
    simp only [viommu_parse_pci]
    rw [if_neg]
    intro hc
    omega
  · intro dd h rs re es devid hne
    simp only [viommu_parse_pci]
    rw [if_neg]
    intro hc
    exact hne hc.1
  · intro domain devid cfg hnot
    cases cfg with
    | pciRange h rs re es => exact absurd rfl (hnot h rs re es)
    | endpoint a ei => rfl
    | unknown t => rfl
  · intro m a ei e
    simp only [viommu_parse_plat]
    split
    · rename_i hc
      constructor
      · intro he; exact ⟨hc, (Option.some.inj he).symm⟩
      · intro hc2; exact congrArg some hc2.2.symm
    · rename_i hc
      constructor
      · intro he; cases he
      · intro hc2; exact absurd hc2.1 hc
  · intro m a ei hne
    simp only [viommu_parse_plat]
    exact if_neg hne
  · intro m cfg hnot
    cases cfg with
    | pciRange h rs re es => rfl
    | endpoint a ei => exact absurd rfl (hnot a ei)
    | unknown t => rfl

/-- Witness for C1 at the reference scenario of the spec: domain 0, requester
range 8..15 mapped from endpoint 100; requester 8 maps to 100, requester 15
to 107, requester 16 and a foreign domain do not match; a platform endpoint
entry at address 4096 matches exactly that address. -/
theorem c1_match_predicate_witness :
    viommu_parse_pci 0 8 (ViommuTopoCfg.pciRange 0 8 15 100) = some 100 ∧
    viommu_parse_pci 0 15 (ViommuTopoCfg.pciRange 0 8 15 100) = some 107 ∧
    viommu_parse_pci 0 16 (ViommuTopoCfg.pciRange 0 8 15 100) = none ∧
    viommu_parse_pci 1 11 (ViommuTopoCfg.pciRange 0 8 15 100) = none ∧
    viommu_parse_pci 0 11 (ViommuTopoCfg.endpoint 4096 7) = none ∧
    viommu_parse_plat 4096 (ViommuTopoCfg.endpoint 4096 7) = some 7 ∧
    viommu_parse_plat 4097 (ViommuTopoCfg.endpoint 4096 7) = none :=
  ⟨c1_match_predicate.2.1 0 8 15 100 (by decide) (by decide),
   c1_match_predicate.2.2.1 0 8 15 100 (by decide) (by decide),
   c1_match_predicate.2.2.2.1 0 8 15 100 16 (by decide),
   c1_match_predicate.2.2.2.2.1 1 0 8 15 100 11 (by decide),
   c1_match_predicate.2.2.2.2.2.1 0 11 (ViommuTopoCfg.endpoint 4096 7)
     (fun _ _ _ _ hc => by cases hc),
   (c1_match_predicate.2.2.2.2.2.2.1 4096 4096 7 7).mpr ⟨rfl, rfl⟩,
   c1_match_predicate.2.2.2.2.2.2.2.1 4096 4097 7 (by decide)⟩

/-- Closed form of the viommu_ccopy loop: n reads at consecutive 4-byte
offsets starting from the initial cursor, each offset taken as a u32. -/
theorem ccopyLoop_eq (rd : Nat → Nat) :
    ∀ (n offset : Nat),
      ccopyLoop rd offset n =
        ((List.range n).map (fun i => rd ((offset + 4 * i) % 2 ^ 32)),
         (List.range n).map (fun i => (offset + 4 * i) % 2 ^ 32)) := by
  intro n
  induction n with
  | zero => intro offset; simp [ccopyLoop]
  | succ n ih =>
    intro offset
    have hfun1 : (fun i => rd ((offset + 4 + 4 * i) % 2 ^ 32)) =
        (fun i => rd ((offset + 4 * (i + 1)) % 2 ^ 32)) := by
      funext i
      have harg : offset + 4 + 4 * i = offset + 4 * (i + 1) := by ring
      rw [harg]
    have hfun2 : (fun i => (offset + 4 + 4 * i) % 2 ^ 32) =
        (fun i => (offset + 4 * (i + 1)) % 2 ^ 32) := by
      funext i
      have harg : offset + 4 + 4 * i = offset + 4 * (i + 1) := by ring
      rw [harg]
    simp only [ccopyLoop, ih (offset + 4), hfun1, hfun2,
      List.range_succ_eq_map, List.map_cons, List.map_map]
    simp [Function.comp_def, Nat.succ_eq_add_one]

/-- C8: viommu_ccopy with a byte length that is not a multiple of 4 performs
zero reads and leaves the destination untouched; with a multiple of 4 it
performs exactly length / 4 sequential 4-byte reads at offsets start,
start + 4, ..., writing the results in order into the destination. -/
theorem c8_ccopy (rd : Nat → Nat) (dest : List Nat) (length offset : Nat) :
    (length % 4 ≠ 0 → viommu_ccopy rd dest length offset = (dest, [])) ∧
    (length % 4 = 0 →
      viommu_ccopy rd dest length offset =
        ((List.range (length / 4)).map (fun i => rd ((offset + 4 * i) % 2 ^ 32))
            ++ dest.drop (length / 4),
         (List.range (length / 4)).map (fun i => (offset + 4 * i) % 2 ^ 32))) := by
  constructor
  · intro h
    simp [viommu_ccopy, h]
  · intro h
    simp [viommu_ccopy, h, ccopyLoop_eq]

/-- Witness for C8: a 3-byte copy does nothing and reads nothing; an 8-byte
copy performs two reads at offsets 40 and 44 and overwrites the first two
destination words. -/
theorem c8_ccopy_witness :
    viommu_ccopy rdW [9, 9, 9] 3 40 = ([9, 9, 9], []) ∧
    viommu_ccopy rdW [9, 9, 9] 8 40 =
      ((List.range (8 / 4)).map (fun i => rdW ((40 + 4 * i) % 2 ^ 32))
          ++ [9, 9, 9].drop (8 / 4),
       (List.range (8 / 4)).map (fun i => (40 + 4 * i) % 2 ^ 32)) :=
  ⟨(c8_ccopy rdW [9, 9, 9] 3 40).1 (by decide),
   (c8_ccopy rdW [9, 9, 9] 8 40).2 rfl⟩

/-- C5 counterexample: with a capability window of declared length 1 at
offset 0, a 4-byte read requested at offset 2 ^ 32 - 4 should fail according
to the claim (since 2 ^ 32 - 4 + 4 exceeds 1), but the 32-bit sum wraps to 0,
the bounds check passes, the window is reprogrammed and the bus access is
issued. -/
theorem c5_window_counterexample :
    viommu_pci_switch_cfg { bar := 0, length := 1, offset := 0 } 4 (2 ^ 32 - 4) =
      some (0, 4, 2 ^ 32 - 4) ∧
    2 ^ 32 - 4 + 4 > 1 ∧
    viommu_pci_readl { bar := 0, length := 1, offset := 0 } (fun _ => 99)
      (2 ^ 32 - 4) = 99 := by
  refine ⟨?_, by decide, ?_⟩ <;> decide

/-- C5 amended: provided the 32-bit sums do not wrap (the requested offset
plus the capability offset plus 4 stays below 2 ^ 32, as does the capability
offset plus its declared length), the windowed 4-byte read fails with the
overflow error exactly when offset + 4 exceeds the declared length; in the
failure case the read returns 0 without issuing the bus access, and otherwise
the window is reprogrammed to the shifted offset and the access is issued. -/
theorem c5_window_amended (cap : ViommuCapConfig) (offset : Nat)
    (busRead : Nat × Nat × Nat → Nat)
    (hcap : cap.offset + cap.length < 2 ^ 32)
    (hoff : offset + cap.offset + 4 < 2 ^ 32) :
    (viommu_pci_switch_cfg cap 4 offset = none ↔ offset + 4 > cap.length) ∧
    (offset + 4 > cap.length → viommu_pci_readl cap busRead offset = 0) ∧
    (offset + 4 ≤ cap.length →
      viommu_pci_switch_cfg cap 4 offset = some (cap.bar, 4, offset + cap.offset) ∧
      viommu_pci_readl cap busRead offset = busRead (cap.bar, 4, offset + cap.offset)) := by
  have hmod1 : (offset + cap.offset) % 2 ^ 32 = offset + cap.offset :=
    Nat.mod_eq_of_lt (by omega)
  have hswitch : viommu_pci_switch_cfg cap 4 offset =
      if offset + 4 > cap.length then none
      else some (cap.bar, 4, offset + cap.offset) := by
    simp only [viommu_pci_switch_cfg, hmod1]
    rw [Nat.mod_eq_of_lt hoff, Nat.mod_eq_of_lt hcap]
    by_cases hgt : offset + 4 > cap.length
    · rw [if_pos (by omega), if_pos hgt]
    · rw [if_neg (by omega), if_neg hgt]
  refine ⟨?_, ?_, ?_⟩
  · rw [hswitch]
    by_cases hgt : offset + 4 > cap.length
    · simp [hgt]
    · simp [hgt]
  · intro hgt
    simp [viommu_pci_readl, hswitch, hgt]
  · intro hle
    have hgt : ¬ (offset + 4 > cap.length) := by omega
    constructor
    · rw [hswitch, if_neg hgt]
    · simp [viommu_pci_readl, hswitch, hgt]

/-- Witness for C5 amended: a window of length 8 at capability offset 16
rejects a 4-byte read at offset 8 (returning 0) and accepts one at offset 2,
issuing the access through the reprogrammed window at shifted offset 18. -/
theorem c5_window_amended_witness :
    (viommu_pci_switch_cfg { bar := 3, length := 8, offset := 16 } 4 8 = none ↔
      8 + 4 > 8) ∧
    viommu_pci_readl { bar := 3, length := 8, offset := 16 } (fun _ => 55) 8 = 0 ∧
    viommu_pci_switch_cfg { bar := 3, length := 8, offset := 16 } 4 2 =
      some (3, 4, 2 + 16) ∧
    viommu_pci_readl { bar := 3, length := 8, offset := 16 } (fun _ => 55) 2 = 55 := by
  have h1 := c5_window_amended { bar := 3, length := 8, offset := 16 }
    8 (fun _ => 55) (by decide) (by decide)
  have h2 := c5_window_amended { bar := 3, length := 8, offset := 16 }
    2 (fun _ => 55) (by decide) (by decide)
  exact ⟨h1.1, h1.2.1 (by decide), (h2.2.2 (by decide)).1, (h2.2.2 (by decide)).2⟩

/-- C7: a header in which the table offset, the item length or the item count
is zero makes viommu_parse_topology return the successful no-table outcome,
and nothing is inserted into the registry. -/
theorem c7_zero_header (dev : Device) (rd : Nat → Nat)
    (offset item_length num_items : Nat) (regs : List RawSpec)
    (h : offset = 0 ∨ item_length = 0 ∨ num_items = 0) :
    viommu_parse_topology dev rd offset item_length num_items = none ∧
    viommu_parse_and_register regs dev rd offset item_length num_items = regs := by
  have hnone : viommu_parse_topology dev rd offset item_length num_items = none := by
    simp only [viommu_parse_topology]
    rw [if_pos (by tauto)]
  exact ⟨hnone, by simp [viommu_parse_and_register, hnone]⟩

/-- Witness for C7: a header with table offset 0 yields no table and leaves
an empty registry empty. -/
theorem c7_zero_header_witness :
    viommu_parse_topology devNone rdW 0 16 2 = none ∧
    viommu_parse_and_register [] devNone rdW 0 16 2 = [] :=
  c7_zero_header devNone rdW 0 16 2 [] (Or.inl rfl)

/-- The decoder produces one entry per item. -/
theorem parseItems_length (rd : Nat → Nat) (item_length : Nat) :
    ∀ (n offset : Nat), (parseItems rd item_length offset n).length = n := by
  intro n
  induction n with
  | zero => intro offset; rfl
  | succ n ih => intro offset; simp [parseItems, ih]

/-- Entry i of the decoded table is the entry decoded at base offset
offset + i * item_length: the cursor advances by the device-declared
item_length per item. -/
theorem parseItems_getElem (rd : Nat → Nat) (item_length : Nat) :
    ∀ (n offset i : Nat), i < n →
      (parseItems rd item_length offset n)[i]? =
        some (decodedEntry rd item_length (offset + i * item_length)) := by
  intro n
  induction n with
  | zero => intro offset i hi; exact absurd hi (Nat.not_lt_zero i)
  | succ n ih =>
    intro offset i hi
    cases i with
    | zero => simp [parseItems]
    | succ i =>
      have hi' : i < n := Nat.lt_of_succ_lt_succ hi
      have harg : offset + item_length + i * item_length =
          offset + (i + 1) * item_length := by ring
      simp only [parseItems, List.getElem?_cons_succ,
        ih (offset + item_length) i hi', harg]

/-- Byte expansion distributes over word-list concatenation. -/
theorem wordsToBytes_append (a b : List Nat) :
    wordsToBytes (a ++ b) = wordsToBytes a ++ wordsToBytes b := by
  induction a with
  | nil => rfl
  | cons w ws ih => simp [wordsToBytes, List.append_assoc, ih]

/-- Byte expansion of zero words is zero bytes. -/
theorem wordsToBytes_replicate (k : Nat) :
    wordsToBytes (List.replicate k 0) = List.replicate (4 * k) 0 := by
  induction k with
  | zero => rfl
  | succ k ih =>
    have h4 : 4 * (k + 1) = 4 + 4 * k := by ring
    rw [List.replicate_succ, wordsToBytes, ih, h4, List.replicate_add]
    rfl

/-- Taking a word-aligned byte count commutes with byte expansion. -/
theorem wordsToBytes_take :
    ∀ (ws : List Nat) (k : Nat),
      (wordsToBytes ws).take (4 * k) = wordsToBytes (ws.take k) := by
  intro ws
  induction ws with
  | nil => intro k; simp [wordsToBytes]
  | cons w ws ih =>
    intro k
    cases k with
    | zero => simp [wordsToBytes]
    | succ k =>
      have h4 : 4 * (k + 1) = 4 * k + 4 := by ring
      simp only [wordsToBytes, List.take_succ_cons, h4]
      rw [List.take_append_eq_append_take]
      have hlen : (wordBytes w).length = 4 := rfl
      rw [hlen, List.take_of_length_le (by omega), Nat.add_sub_cancel, ih k]

/-- With a 4-byte-aligned capped read length, the decoded entry is the read
words followed by the untouched zero words of the kzalloc'd storage. -/
theorem decodedEntry_aligned (rd : Nat → Nat) (item_length base : Nat)
    (h : min item_length entrySize % 4 = 0) :
    decodedEntry rd item_length base =
      (List.range (min item_length entrySize / 4)).map
          (fun i => rd ((base + 4 * i) % 2 ^ 32))
        ++ List.replicate (topoCfgWords - min item_length entrySize / 4) 0 := by
  unfold decodedEntry viommu_ccopy
  rw [if_neg (fun hne => hne h)]
  simp [ccopyLoop_eq, List.drop_replicate]

/-- With a capped read length that is not a multiple of 4, the WARN_ON in
viommu_ccopy aborts the copy and the entry stays entirely zero. -/
theorem decodedEntry_misaligned (rd : Nat → Nat) (item_length base : Nat)
    (h : min item_length entrySize % 4 ≠ 0) :
    decodedEntry rd item_length base = List.replicate topoCfgWords 0 := by
  unfold decodedEntry viommu_ccopy
  rw [if_pos h]

/-- Byte-level reading of an aligned decoded entry: the first
min(item_length, entrySize) bytes of the item as the reader exposes it,
zero-filled up to the fixed entry size. -/
theorem decodedEntry_bytes (rd : Nat → Nat) (item_length base : Nat)
    (h : min item_length entrySize % 4 = 0) :
    wordsToBytes (decodedEntry rd item_length base) =
      (wordsToBytes (itemWords rd base)).take (min item_length entrySize)
        ++ List.replicate (entrySize - min item_length entrySize) 0 := by
  rw [decodedEntry_aligned rd item_length base h, wordsToBytes_append,
    wordsToBytes_replicate]
  obtain ⟨rl, hrl⟩ : ∃ rl, min item_length entrySize = rl := ⟨_, rfl⟩
  rw [hrl]
  have h16 : rl ≤ 16 := by
    rw [← hrl]
    exact Nat.le_trans (Nat.min_le_right item_length entrySize) (by decide)
  have hdvd : (4 : Nat) ∣ rl := by
    rw [← hrl]
    exact Nat.dvd_of_mod_eq_zero h
  have hmul : 4 * (rl / 4) = rl := Nat.mul_div_cancel' hdvd
  have h1 : (wordsToBytes (itemWords rd base)).take rl =
      wordsToBytes ((itemWords rd base).take (rl / 4)) := by
    conv_lhs => rw [← hmul]
    exact wordsToBytes_take _ _
  have h2 : (itemWords rd base).take (rl / 4) =
      (List.range (rl / 4)).map (fun i => rd ((base + 4 * i) % 2 ^ 32)) := by
    unfold itemWords
    rw [← List.map_take, List.take_range]
    have hd4 : min (rl / 4) topoCfgWords = rl / 4 := by
      simp only [topoCfgWords]
      omega
    rw [hd4]
  rw [h1, h2]
  congr 1
  have hfin : 4 * (topoCfgWords - rl / 4) = entrySize - rl := by
    simp only [topoCfgWords, entrySize]
    omega
  rw [hfin]

/-- C3 counterexample: header with table offset 4, item length 2 and one
item, over a device whose words all read 171.  The claim predicts that the
entry holds the first min(2, 16) = 2 bytes of the item (171 and 0) followed
by zeros, but the 2-byte read length trips the WARN_ON in viommu_ccopy and
the decoded entry is entirely zero. -/
theorem c3_decoder_counterexample :
    viommu_parse_topology devNone rdC3 4 2 1 =
      some { dev := devNone, num_items := 1, cfg := [[0, 0, 0, 0]] } ∧
    wordsToBytes [0, 0, 0, 0] = List.replicate (4 * topoCfgWords) 0 ∧
    (wordsToBytes (itemWords rdC3 4)).take (min 2 entrySize)
        ++ List.replicate (entrySize - min 2 entrySize) 0 ≠
      List.replicate (4 * topoCfgWords) 0 := by
  decide

/-- C3 amended: for every header with all three fields non-zero, decoding
yields a table of exactly num_items entries in original item order, entry i
being read at cursor table_offset + i * item_length (the cursor advances by
the device-declared item_length, not the capped read length); whenever the
capped read length min(item_length, entrySize) is a multiple of 4, entry i
holds exactly the first min(item_length, entrySize) bytes of item i
zero-filled to the fixed entry size, and otherwise the copy is rejected and
entry i is entirely zero. -/
theorem c3_decode_amended (dev : Device) (rd : Nat → Nat)
    (offset item_length num_items : Nat)
    (h1 : offset ≠ 0) (h2 : item_length ≠ 0) (h3 : num_items ≠ 0) :
    ∃ spec, viommu_parse_topology dev rd offset item_length num_items = some spec ∧
      spec.num_items = num_items ∧
      spec.cfg.length = num_items ∧
      ∀ i, i < num_items →
        spec.cfg[i]? = some (decodedEntry rd item_length (offset + i * item_length)) ∧
        (min item_length entrySize % 4 = 0 →
          wordsToBytes (decodedEntry rd item_length (offset + i * item_length)) =
            (wordsToBytes (itemWords rd (offset + i * item_length))).take
                (min item_length entrySize)
              ++ List.replicate (entrySize - min item_length entrySize) 0) ∧
        (min item_length entrySize % 4 ≠ 0 →
          decodedEntry rd item_length (offset + i * item_length) =
            List.replicate topoCfgWords 0) := by
  refine ⟨{ dev := dev, num_items := num_items,
            cfg := parseItems rd item_length offset num_items }, ?_, rfl, ?_, ?_⟩
  · simp only [viommu_parse_topology]
    rw [if_neg (by tauto)]
  · exact parseItems_length rd item_length num_items offset
  · intro i hi
    exact ⟨parseItems_getElem rd item_length num_items offset i hi,
      fun h4 => decodedEntry_bytes rd item_length _ h4,
      fun h4 => decodedEntry_misaligned rd item_length _ h4⟩

/-- Witness for C3 amended: header with offset 4, item length 8 and two
items over the sample reader. -/
theorem c3_decode_amended_witness :
    ∃ spec, viommu_parse_topology devNone rdW 4 8 2 = some spec ∧
      spec.num_items = 2 ∧
      spec.cfg.length = 2 ∧
      ∀ i, i < 2 →
        spec.cfg[i]? = some (decodedEntry rdW 8 (4 + i * 8)) ∧
        (min 8 entrySize % 4 = 0 →
          wordsToBytes (decodedEntry rdW 8 (4 + i * 8)) =
            (wordsToBytes (itemWords rdW (4 + i * 8))).take (min 8 entrySize)
              ++ List.replicate (entrySize - min 8 entrySize) 0) ∧
        (min 8 entrySize % 4 ≠ 0 →
          decodedEntry rdW 8 (4 + i * 8) = List.replicate topoCfgWords 0) :=
  c3_decode_amended devNone rdW 4 8 2 (by decide) (by decide) (by decide)

/-- Repeated list_add insertions build the reverse of the insertion
sequence in front of the initial registry. -/
theorem foldl_insertTable (ts : List ViommuSpec) :
    ∀ acc, ts.foldl (fun regs t => insertTable t regs) acc = ts.reverse ++ acc := by
  induction ts with
  | nil => intro acc; simp
  | cons t ts ih =>
    intro acc
    simp [insertTable, ih (t :: acc), List.append_assoc]

/-- Characterization of the registry scan: it returns exactly the first
table, in list order, containing a matching entry. -/
theorem scanSpecs_eq_some_iff (f : ViommuTopoCfg → Option Nat) :
    ∀ (l : List ViommuSpec) (s : ViommuSpec) (e : Nat),
      scanSpecs f l = some (s, e) ↔
        ∃ pre post, l = pre ++ s :: post ∧
          (∀ t ∈ pre, firstEntryMatch f t.cfg = none) ∧
          firstEntryMatch f s.cfg = some e := by
  intro l
  induction l with
  | nil =>
    intro s e
    constructor
    · intro h; exact absurd h (by simp [scanSpecs])
    · rintro ⟨pre, post, hdec, -, -⟩
      exact absurd hdec (by simp)
  | cons t rest ih =>
    intro s e
    constructor
    · intro h
      simp only [scanSpecs] at h
      cases hM : firstEntryMatch f t.cfg with
      | some e0 =>
        rw [hM] at h
        have hp := Option.some.inj h
        have hts : t = s := congrArg Prod.fst hp
        have he0 : e0 = e := congrArg Prod.snd hp
        subst hts
        exact ⟨[], rest, by simp, by simp, by rw [hM, he0]⟩
      | none =>
        rw [hM] at h
        obtain ⟨pre, post, hdec, hpre, hs⟩ := (ih s e).mp h
        refine ⟨t :: pre, post, by simp [hdec], ?_, hs⟩
        intro u hu
        rcases List.mem_cons.mp hu with hu | hu
        · subst hu; exact hM
        · exact hpre u hu
    · rintro ⟨pre, post, hdec, hpre, hs⟩
      cases pre with
      | nil =>
        simp only [List.nil_append] at hdec
        have hts : t = s := (List.cons.injEq t rest s post).mp hdec |>.1
        have hrest : rest = post := (List.cons.injEq t rest s post).mp hdec |>.2
        subst hts
        simp only [scanSpecs, hs]
      | cons p pre =>
        simp only [List.cons_append] at hdec
        have htp : t = p := (List.cons.injEq _ _ _ _).mp hdec |>.1
        have hrest : rest = pre ++ s :: post := (List.cons.injEq _ _ _ _).mp hdec |>.2
        have hpnone : firstEntryMatch f t.cfg = none := by
          rw [htp]; exact hpre p (List.mem_cons_self p pre)
        simp only [scanSpecs, hpnone]
        exact (ih s e).mpr ⟨pre, post, hrest,
          fun u hu => hpre u (List.mem_cons_of_mem p hu), hs⟩

/-- C2 counterexample: two tables are inserted in the order specA then
specB, both containing an entry matching the PCI device with requester
ID 11 in domain 0; the resolver uses specB, the most recently inserted
table (endpoint 511, ops 2), not specA, the first-inserted table (which
would give endpoint 103, ops 1): list_add prepends, so the scan order is
the reverse of the insertion order. -/
theorem c2_order_counterexample :
    insertTable specB (insertTable specA []) = [specB, specA] ∧
    virt_iommu_setup (insertTable specB (insertTable specA [])) none devPci11 =
      Resolution.translated 511 2 none ∧
    Resolution.translated 511 2 none ≠ Resolution.translated 103 1 none := by
  decide

/-- C2 amended: the resolver's scan visits the tables in the reverse of the
order in which they were inserted (most recently inserted first), and the
first table in that scan order containing a matching entry is the one whose
ops, fwnode and owning device the resolution uses; first match wins, not
best match. -/
theorem c2_scan_order_amended (ts : List ViommuSpec) (f : ViommuTopoCfg → Option Nat)
    (s : ViommuSpec) (e : Nat) :
    ts.foldl (fun regs t => insertTable t regs) [] = ts.reverse ∧
    (scanSpecs f ts.reverse = some (s, e) ↔
      ∃ pre post, ts.reverse = pre ++ s :: post ∧
        (∀ t ∈ pre, firstEntryMatch f t.cfg = none) ∧
        firstEntryMatch f s.cfg = some e) ∧
    (∀ d o, deviceMatcher d = some f → scanSpecs f ts.reverse = some (s, e) →
      s.dev ≠ d → s.ops = some o →
      virt_iommu_setup ts.reverse none d = Resolution.translated e o s.fwnode) := by
  refine ⟨by simpa using foldl_insertTable ts [],
    scanSpecs_eq_some_iff f ts.reverse s e, ?_⟩
  intro d o hf hscan hdev hops
  simp [virt_iommu_setup, hf, resolveScan, hscan, hdev, hops]

/-- Witness for C2 amended, at the concrete two-table scenario of the
counterexample: inserting specA then specB yields the reversed registry, the
scan finds specB with endpoint 511, and the resolution uses specB's ops. -/
theorem c2_scan_order_amended_witness :
    [specA, specB].foldl (fun regs t => insertTable t regs) [] =
      [specA, specB].reverse ∧
    (scanSpecs (viommu_parse_pci 0 11) [specA, specB].reverse =
        some (specB, 511) ↔
      ∃ pre post, [specA, specB].reverse = pre ++ specB :: post ∧
        (∀ t ∈ pre, firstEntryMatch (viommu_parse_pci 0 11) t.cfg = none) ∧
        firstEntryMatch (viommu_parse_pci 0 11) specB.cfg = some 511) ∧
    (∀ d o, deviceMatcher d = some (viommu_parse_pci 0 11) →
      scanSpecs (viommu_parse_pci 0 11) [specA, specB].reverse =
        some (specB, 511) →
      specB.dev ≠ d → specB.ops = some o →
      virt_iommu_setup [specA, specB].reverse none d =
        Resolution.translated 511 o specB.fwnode) :=
  c2_scan_order_amended [specA, specB] (viommu_parse_pci 0 11) specB 511

/-- C6: a matching entry whose table is owned by the resolved device itself
forces NotApplicable; the IOMMU does not translate its own transport. -/
theorem c6_self_translation (regs : List ViommuSpec) (d : Device)
    (f : ViommuTopoCfg → Option Nat) (s : ViommuSpec) (e : Nat)
    (hf : deviceMatcher d = some f)
    (hscan : scanSpecs f regs = some (s, e))
    (hself : s.dev = d) :
    virt_iommu_setup regs none d = Resolution.notApplicable := by
  simp [virt_iommu_setup, hf, resolveScan, hscan, hself]

/-- Witness for C6: devSelf owns a table whose entry covers its own
requester ID, and its resolution is NotApplicable. -/
theorem c6_self_translation_witness :
    virt_iommu_setup [specSelf] none devSelf = Resolution.notApplicable :=
  c6_self_translation [specSelf] devSelf (viommu_parse_pci 0 8) specSelf 100
    rfl (by decide) rfl

/-- C9: a device that is neither PCI nor platform, or a platform device
without a primary memory resource, resolves to NotApplicable for every
registry state; the outcome does not depend on the registry, which is never
scanned, and is in particular never Deferred and never Translated. -/
theorem c9_unclassifiable (regs : List ViommuSpec) (d : Device)
    (h : d.cls = DeviceClass.otherBus ∨ d.cls = DeviceClass.platform none) :
    virt_iommu_setup regs none d = Resolution.notApplicable := by
  have hm : deviceMatcher d = none := by
    rcases h with h | h <;> simp [deviceMatcher, h]
  simp [virt_iommu_setup, hm]

/-- Witness for C9: a non-PCI non-platform device resolves to NotApplicable
even over a registry with matching-capable tables. -/
theorem c9_unclassifiable_witness :
    virt_iommu_setup [specA, specB] none devNone = Resolution.notApplicable :=
  c9_unclassifiable [specA, specB] devNone (Or.inl rfl)

/-- The table returned by the registry scan does contain a matching entry. -/
theorem scanSpecs_found_match (f : ViommuTopoCfg → Option Nat) :
    ∀ (regs : List ViommuSpec) (s : ViommuSpec) (e : Nat),
      scanSpecs f regs = some (s, e) → firstEntryMatch f s.cfg = some e := by
  intro regs
  induction regs with
  | nil => intro s e h; exact absurd h (by simp [scanSpecs])
  | cons t rest ih =>
    intro s e h
    simp only [scanSpecs] at h
    cases hM : firstEntryMatch f t.cfg with
    | some e0 =>
      rw [hM] at h
      have hp := Option.some.inj h
      have hts : t = s := congrArg Prod.fst hp
      have he0 : e0 = e := congrArg Prod.snd hp
      rw [← hts, hM, he0]
    | none =>
      rw [hM] at h
      exact ih s e h

/-- Registering ops on the owner of the table found by the scan does not
disturb the scan: when that owner owns no other table in the registry, the
repeated scan finds the same table at the same position with the same
endpoint ID, now carrying the registered ops and the owner's fwnode. -/
theorem scanSpecs_set_ops (f : ViommuTopoCfg → Option Nat) (o : Option Nat) :
    ∀ (regs : List ViommuSpec) (s : ViommuSpec) (e : Nat),
      scanSpecs f regs = some (s, e) →
      (∀ t ∈ regs, t.dev = s.dev → t = s) →
      scanSpecs f (virt_set_iommu_ops s.dev o regs) =
        some ({ s with
                  ops := o
                  fwnode := if o.isSome then s.dev.fwnode else none }, e) := by
  intro regs
  induction regs with
  | nil => intro s e h _; exact absurd h (by simp [scanSpecs])
  | cons t rest ih =>
    intro s e h huniq
    simp only [scanSpecs] at h
    cases hM : firstEntryMatch f t.cfg with
    | some e0 =>
      rw [hM] at h
      have hp := Option.some.inj h
      have hts : t = s := congrArg Prod.fst hp
      have he0 : e0 = e := congrArg Prod.snd hp
      subst hts
      subst he0
      simp only [virt_set_iommu_ops, if_pos rfl]
      simp only [scanSpecs]
      rw [show ({ t with
                    ops := o
                    fwnode := if o.isSome then t.dev.fwnode
                              else none } : ViommuSpec).cfg =
          t.cfg from rfl, hM]
    | none =>
      rw [hM] at h
      by_cases ht : t.dev = s.dev
      · have hts : t = s := huniq t (List.mem_cons_self t rest) ht
        have hsm := scanSpecs_found_match f rest s e h
        rw [← hts, hM] at hsm
        exact absurd hsm (by simp)
      · simp only [virt_set_iommu_ops, if_neg ht]
        simp only [scanSpecs, hM]
        exact ih s e h (fun u hu hud => huniq u (List.mem_cons_of_mem t hu) hud)

/-- C4: when a table matches the device but its ops is still unset,
resolution defers and the DMA facade returns -EPROBE_DEFER; after the
owner's registration call fills in ops for that table (the owner owning no
other table, so the registration targets the matched table), a repeated
resolution of the same device is Translated with the same endpoint ID the
deferred attempt had computed. -/
theorem c4_deferred_then_translated (regs : List ViommuSpec) (d : Device)
    (f : ViommuTopoCfg → Option Nat) (s : ViommuSpec) (e : Nat) (newOps : Nat)
    (hf : deviceMatcher d = some f)
    (hscan : scanSpecs f regs = some (s, e))
    (hops : s.ops = none)
    (hself : s.dev ≠ d)
    (huniq : ∀ t ∈ regs, t.dev = s.dev → t = s) :
    virt_iommu_setup regs none d = Resolution.deferred ∧
    virt_dma_configure regs none d = -EPROBE_DEFER ∧
    virt_iommu_setup (virt_set_iommu_ops s.dev (some newOps) regs) none d =
      Resolution.translated e newOps s.dev.fwnode := by
  have hdef : virt_iommu_setup regs none d = Resolution.deferred := by
    simp [virt_iommu_setup, hf, resolveScan, hscan, hself, hops]
  refine ⟨hdef, by simp [virt_dma_configure, hdef], ?_⟩
  have hscan2 := scanSpecs_set_ops f (some newOps) regs s e hscan huniq
  simp [virt_iommu_setup, hf, resolveScan, hscan2, hself]

/-- Witness for C4: the pending table defers the PCI device with requester
ID 11 and endpoint 103; after virt_set_iommu_ops on its owner with ops 42,
the same device resolves to Translated with endpoint 103 and ops 42. -/
theorem c4_deferred_then_translated_witness :
    virt_iommu_setup [specPending] none devPci11 = Resolution.deferred ∧
    virt_dma_configure [specPending] none devPci11 = -EPROBE_DEFER ∧
    virt_iommu_setup (virt_set_iommu_ops specPending.dev (some 42) [specPending])
        none devPci11 =
      Resolution.translated 103 42 specPending.dev.fwnode :=
  c4_deferred_then_translated [specPending] devPci11 (viommu_parse_pci 0 11)
    specPending 103 42 rfl (by decide) rfl (by decide) (by decide)

/-- C10: virt_set_iommu_ops mutates exactly the first table in scan order
owned by the given device, replacing only its ops and fwnode fields (fwnode
becomes the device's fwnode when ops is non-null and none when ops is
null), leaving every other table and all remaining fields untouched; when
no table is owned by the device the registry is unchanged. -/
theorem c10_registration_frame (d : Device) (newOps : Option Nat) :
    (∀ pre s post,
        (∀ t ∈ pre, t.dev ≠ d) → s.dev = d →
        virt_set_iommu_ops d newOps (pre ++ s :: post) =
          pre ++ { s with
                     ops := newOps
                     fwnode := if newOps.isSome then d.fwnode
                               else none } :: post) ∧
    (∀ regs, (∀ t ∈ regs, t.dev ≠ d) → virt_set_iommu_ops d newOps regs = regs) := by
  constructor
  · intro pre
    induction pre with
    | nil =>
      intro s post _ hs
      simp [virt_set_iommu_ops, hs]
    | cons p pre ih =>
      intro s post hpre hs
      have hp : p.dev ≠ d := hpre p (List.mem_cons_self p pre)
      simp only [List.cons_append, virt_set_iommu_ops, if_neg hp]
      exact congrArg (fun l => p :: l)
        (ih s post (fun t ht => hpre t (List.mem_cons_of_mem p ht)) hs)
  · intro regs
    induction regs with
    | nil => intro _; rfl
    | cons t rest ih =>
      intro h
      have ht : t.dev ≠ d := h t (List.mem_cons_self t rest)
      simp only [virt_set_iommu_ops, if_neg ht]
      exact congrArg (fun l => t :: l)
        (ih (fun u hu => h u (List.mem_cons_of_mem t hu)))

/-- Witness for C10: registering ops 9 on devT updates exactly its table in
the registry specA, specT, specB, and a registry without any devT-owned
table is unchanged. -/
theorem c10_registration_frame_witness :
    virt_set_iommu_ops devT (some 9) ([specA] ++ specT :: [specB]) =
      [specA] ++ { specT with
                     ops := some 9
                     fwnode := if (some 9 : Option Nat).isSome then devT.fwnode
                               else none } :: [specB] ∧
    virt_set_iommu_ops devT (some 9) [specA, specB] = [specA, specB] :=
  ⟨(c10_registration_frame devT (some 9)).1 [specA] specT [specB] (by decide) rfl,
   (c10_registration_frame devT (some 9)).2 [specA, specB] (by decide)⟩
